import Mathlib

/-!
Verification development for an email-to-CalDAV delivery pipeline.

The repository has two delivery variants:
* an HTTP ingest service (`ingest.py`): receives a raw email by POST,
  extracts calendar attachments, classifies each as VEVENT or VTODO,
  ensures the destination collection exists and PUTs each payload;
* a mailbox poller (`ics-sync.py`): scans an IMAP folder, pushes the
  calendar attachments of each unprocessed message, and deletes/logs a
  message only when every one of its payloads pushed successfully.

The definitions below are shallow embeddings of the repository code:
byte strings are `List Nat`, Python text values are `String`/`List Char`,
HTTP outcomes are an explicit `NetResult` type, and the side-effecting
loops are written as state-passing functions that also record a trace of
the operations they perform.
-/

namespace Radicale

/-- Characters Python `str.strip()` and `str.split(None)` treat as
whitespace (the ASCII whitespace range, the separator control codes,
NEL, NBSP and the common Unicode space characters). -/
def isPySpace (c : Char) : Bool :=
  (9 ≤ c.toNat && c.toNat ≤ 13) || c.toNat = 32 ||
  (28 ≤ c.toNat && c.toNat ≤ 31) || c.toNat = 0x85 || c.toNat = 0xA0 ||
  c.toNat = 0x1680 || (0x2000 ≤ c.toNat && c.toNat ≤ 0x200A) ||
  c.toNat = 0x2028 || c.toNat = 0x2029 || c.toNat = 0x202F ||
  c.toNat = 0x205F || c.toNat = 0x3000

/-- ASCII lower-casing of one character, as `str.lower()` acts on the
ASCII range (the only range the configuration and claims exercise). -/
def lowerChar (c : Char) : Char :=
  if 65 ≤ c.toNat && c.toNat ≤ 90 then Char.ofNat (c.toNat + 32) else c

/-- `str.lower()` on a whole string (ASCII range). -/
def pyLower (s : String) : String := String.mk (s.data.map lowerChar)

/-- `str.strip()` on a character list: drop whitespace from both ends. -/
def pyStripL (l : List Char) : List Char :=
  ((l.dropWhile isPySpace).reverse.dropWhile isPySpace).reverse

/-- `str.strip()` on a string. -/
def pyStrip (s : String) : String := String.mk (pyStripL s.data)

/-- Line-break characters recognised by Python `str.splitlines()`,
apart from `\r` and `\r\n` which the splitter handles itself. -/
def isLineBreak (c : Char) : Bool :=
  c.toNat = 10 || c.toNat = 11 || c.toNat = 12 ||
  c.toNat = 28 || c.toNat = 29 || c.toNat = 30 ||
  c.toNat = 0x85 || c.toNat = 0x2028 || c.toNat = 0x2029

/-- Worker for `str.splitlines()`: `acc` holds the current line in
reverse.  `\r\n` counts as a single break; a final line without a
terminator is kept; a trailing terminator does not add an empty line.
Fuelled so the recursion is structural (each call consumes at least one
character and one unit of fuel). -/
def pySplitGo : Nat → List Char → List Char → List (List Char)
  | _, [], acc => if acc.isEmpty then [] else [acc.reverse]
  | 0, _ :: _, acc => [acc.reverse]
  | fuel + 1, c :: rest, acc =>
    if c = '\r' then
      match rest with
      | '\n' :: rest2 => acc.reverse :: pySplitGo fuel rest2 []
      | _ => acc.reverse :: pySplitGo fuel rest []
    else if isLineBreak c then
      acc.reverse :: pySplitGo fuel rest []
    else
      pySplitGo fuel rest (c :: acc)

/-- Python `str.splitlines()` over a character list. -/
def pySplitlines (l : List Char) : List (List Char) := pySplitGo l.length l []

/-- One step of UTF-8 decoding with `errors="replace"`, fuelled so that
the recursion is structural (each call consumes at least one byte and
one unit of fuel, so `fuel ≥ length` keeps the decoder complete).
Invalid bytes, truncated sequences, overlong encodings and encoded
surrogates produce U+FFFD, as CPython's decoder does. -/
def utf8go : Nat → List Nat → List Char
  | _, [] => []
  | 0, _ :: _ => []
  | fuel + 1, b :: rest =>
    if b < 0x80 then
      Char.ofNat b :: utf8go fuel rest
    else if 0xC2 ≤ b && b ≤ 0xDF then
      match rest with
      | b2 :: rest2 =>
        if 0x80 ≤ b2 && b2 ≤ 0xBF then
          Char.ofNat ((b - 0xC0) * 64 + (b2 - 0x80)) :: utf8go fuel rest2
        else
          Char.ofNat 0xFFFD :: utf8go fuel rest
      | [] => [Char.ofNat 0xFFFD]
    else if 0xE0 ≤ b && b ≤ 0xEF then
      match rest with
      | b2 :: b3 :: rest3 =>
        if ((if b = 0xE0 then 0xA0 else 0x80) ≤ b2 &&
            b2 ≤ (if b = 0xED then 0x9F else 0xBF)) &&
           (0x80 ≤ b3 && b3 ≤ 0xBF) then
          Char.ofNat ((b - 0xE0) * 4096 + (b2 - 0x80) * 64 + (b3 - 0x80)) ::
            utf8go fuel rest3
        else
          Char.ofNat 0xFFFD :: utf8go fuel rest
      | _ => Char.ofNat 0xFFFD :: utf8go fuel rest
    else if 0xF0 ≤ b && b ≤ 0xF4 then
      match rest with
      | b2 :: b3 :: b4 :: rest4 =>
        if (((if b = 0xF0 then 0x90 else 0x80) ≤ b2 &&
             b2 ≤ (if b = 0xF4 then 0x8F else 0xBF)) &&
            (0x80 ≤ b3 && b3 ≤ 0xBF)) && (0x80 ≤ b4 && b4 ≤ 0xBF) then
          Char.ofNat ((b - 0xF0) * 0x40000 + (b2 - 0x80) * 4096 +
              (b3 - 0x80) * 64 + (b4 - 0x80)) :: utf8go fuel rest4
        else
          Char.ofNat 0xFFFD :: utf8go fuel rest
      | _ => Char.ofNat 0xFFFD :: utf8go fuel rest
    else
      Char.ofNat 0xFFFD :: utf8go fuel rest

/-- `bytes.decode("utf-8", errors="replace")`: total on every byte
list, never raises. -/
def utf8DecodeReplace (l : List Nat) : List Char := utf8go l.length l

/-- UTF-8 encoding of one character, as `str.encode("utf-8")` emits it. -/
def utf8EncodeChar (c : Char) : List Nat :=
  let v := c.toNat
  if v < 0x80 then [v]
  else if v < 0x800 then [0xC0 + v / 64, 0x80 + v % 64]
  else if v < 0x10000 then
    [0xE0 + v / 4096, 0x80 + v / 64 % 64, 0x80 + v % 64]
  else
    [0xF0 + v / 0x40000, 0x80 + v / 4096 % 64, 0x80 + v / 64 % 64,
     0x80 + v % 64]

/-- UTF-8 encoding of a character list. -/
def utf8Encode : List Char → List Nat
  | [] => []
  | c :: cs => utf8EncodeChar c ++ utf8Encode cs

/-- Bytes `urllib.parse.quote` leaves unescaped: ALPHA / DIGIT /
`-` / `.` / `_` / `~`. -/
def isUnreserved (b : Nat) : Bool :=
  (0x41 ≤ b && b ≤ 0x5A) || (0x61 ≤ b && b ≤ 0x7A) ||
  (0x30 ≤ b && b ≤ 0x39) || b = 0x2D || b = 0x2E || b = 0x5F || b = 0x7E

/-- Upper-case hex digit of a value below 16. -/
def hexDigit (n : Nat) : Char :=
  if n < 10 then Char.ofNat (0x30 + n) else Char.ofNat (0x41 + n - 10)

/-- `urllib.parse.quote(_, safe="")` over raw bytes: unreserved bytes
pass through, every other byte becomes `%XX` with upper-case hex. -/
def pquoteBytes : List Nat → List Char
  | [] => []
  | b :: rest =>
    if isUnreserved b then
      Char.ofNat b :: pquoteBytes rest
    else
      '%' :: hexDigit (b / 16 % 16) :: hexDigit (b % 16) :: pquoteBytes rest

/-- `urllib.parse.quote(uid, safe="")` as Python applies it to a `str`:
encode as UTF-8, then percent-escape the bytes. -/
def pquote (s : String) : String := String.mk (pquoteBytes (utf8Encode s.data))

/-- Value of an upper-case hex digit character. -/
def unhexDigit (c : Char) : Nat :=
  if 0x30 ≤ c.toNat && c.toNat ≤ 0x39 then c.toNat - 0x30
  else c.toNat - 0x41 + 10

/-- Inverse of `pquoteBytes`, used only to prove it injective. -/
def punquoteBytes : List Char → List Nat
  | [] => []
  | c :: rest =>
    if c = '%' then
      match rest with
      | h1 :: h2 :: rest2 => (unhexDigit h1 * 16 + unhexDigit h2) :: punquoteBytes rest2
      | _ => []
    else
      c.toNat :: punquoteBytes rest

/-! ### ICS helpers (`detect_component`, `extract_uid`, attachment extraction) -/

/-- Worker for `detect_component`: scan decoded lines, return on the
first trimmed line equal to `BEGIN:VTODO`. -/
def detect_component_go : List (List Char) → String
  | [] => "VEVENT"
  | l :: ls =>
    if pyStripL l = "BEGIN:VTODO".data then "VTODO" else detect_component_go ls

/-- `detect_component` from `ingest.py`: decode the payload as UTF-8
with replacement, scan its lines; any trimmed line equal to
`BEGIN:VTODO` classifies the payload as a task, else as an event. -/
def detect_component (ics : List Nat) : String :=
  detect_component_go (pySplitlines (utf8DecodeReplace ics))

/-- Worker for `extract_uid`: return the trimmed remainder of the first
line starting with `UID:`, else the fallback value. -/
def extract_uid_go (fallback : String) : List (List Char) → String
  | [] => fallback
  | l :: ls =>
    if "UID:".data.isPrefixOf l then String.mk (pyStripL (l.drop 4))
    else extract_uid_go fallback ls

/-- `extract_uid` from both scripts: decode, scan lines for a `UID:`
prefix; when none is present return the caller's timestamp-based
fallback (`ingest-<ts>` or `ics-sync-<ts>`; the clock reading is a
parameter of the embedding). -/
def extract_uid (ics : List Nat) (fallback : String) : String :=
  extract_uid_go fallback (pySplitlines (utf8DecodeReplace ics))

/-- One MIME part of a parsed email: declared content type, optional
filename, and the result of `get_payload(decode=True)` (`none` models a
part with no decodable payload). -/
structure Part where
  contentType : String
  filename : Option String
  payload : Option (List Nat)
deriving DecidableEq

/-- Qualification test of `extract_ics_attachments` in `ingest.py`:
content type `text/calendar`, or filename lower-cased first and then
tested for the `.ics` suffix. -/
def ingestQualifies (p : Part) : Bool :=
  p.contentType == "text/calendar" ||
    (".ics".data).isSuffixOf (pyLower (p.filename.getD "")).data

/-- `extract_ics_attachments` from `ingest.py`: walk the parts, keep
qualifying payloads; `if payload:` drops both missing (`None`) and
empty payloads. -/
def extract_ics_attachments : List Part → List (List Nat)
  | [] => []
  | p :: rest =>
    if ingestQualifies p then
      match p.payload with
      | some d =>
        if d.isEmpty then extract_ics_attachments rest
        else d :: extract_ics_attachments rest
      | none => extract_ics_attachments rest
    else extract_ics_attachments rest

/-- Qualification test of the attachment scan in `ics-sync.py`: content
type `text/calendar`, or the filename as-is (no lower-casing) tested
for the `.ics` suffix. -/
def syncQualifies (p : Part) : Bool :=
  p.contentType == "text/calendar" ||
    (".ics".data).isSuffixOf (p.filename.getD "").data

/-- Attachment collection in `ics-sync.py`: the raw result of
`get_payload(decode=True)` is appended for every qualifying part, with
no check that it decoded at all. -/
def sync_attachments : List Part → List (Option (List Nat))
  | [] => []
  | p :: rest =>
    if syncQualifies p then p.payload :: sync_attachments rest
    else sync_attachments rest

/-! ### Remote outcomes, `ensure_collection_exists` and `push_event` -/

/-- Outcome of one `urllib.request.urlopen` call: a response (status in
the non-error class), an `HTTPError` with its status code, or a
transport-level `URLError` (connection refused and the like). -/
inductive NetResult where
  | success (status : Nat)
  | httpError (code : Nat)
  | urlError
deriving DecidableEq

/-- `ensure_collection_exists` from `ingest.py`, parameterised by the
outcomes of its two requests.  The GET probe treats any `HTTPError`
other than 404 as "exists"; only 404 falls through to MKCOL, whose 403
and 405 failures are treated as "already exists".  The probe's `try`
catches only `HTTPError`, so a transport-level `URLError` there
propagates as an exception (`Except.error`); the MKCOL `try` catches
both and returns `False`. -/
def ensure_collection_exists (probe mkcol : NetResult) : Except Unit Bool :=
  match probe with
  | .success _ => .ok true
  | .urlError => .error ()
  | .httpError c =>
    if c ≠ 404 then .ok true
    else
      match mkcol with
      | .success _ => .ok true
      | .httpError c2 => if c2 = 403 ∨ c2 = 405 then .ok true else .ok false
      | .urlError => .ok false

/-- Success test of `push_event` / `push_to_radicale`: a PUT response
counts as pushed when its status is 200, 201 or 204; `HTTPError` and
`URLError` are both caught and yield `False` (never an exception). -/
def push_event (resp : NetResult) : Bool :=
  match resp with
  | .success st => decide (st = 200 ∨ st = 201 ∨ st = 204)
  | .httpError _ => false
  | .urlError => false

/-- PUT target URL as `push_event` builds it:
`f"...{collection_path}{quote(uid, safe='')}.ics"`. -/
def put_url (base cpath uid : String) : String :=
  base ++ cpath ++ pquote uid ++ ".ics"

/-! ### An idealised Radicale server, for end-to-end runs -/

/-- State of the remote server: collections (path with the component
kind they were created for, in creation order) and stored resources
(URL with content, PUT overwriting by URL). -/
structure Server where
  collections : List (String × String)
  items : List (String × List Nat)
deriving DecidableEq

def serverHasCol (s : Server) (cpath : String) : Bool :=
  s.collections.any (fun pc => pc.1 == cpath)

/-- GET probe against the ideal server: 404 exactly when the collection
is absent. -/
def serverGET (s : Server) (cpath : String) : NetResult :=
  if serverHasCol s cpath then .success 200 else .httpError 404

/-- MKCOL against the ideal server: creates the collection typed for
`comp` when absent, else responds 405 as Radicale does. -/
def serverMKCOL (s : Server) (cpath comp : String) : Server × NetResult :=
  if serverHasCol s cpath then (s, .httpError 405)
  else ({ s with collections := s.collections ++ [(cpath, comp)] }, .success 201)

/-- PUT against the ideal server: overwrite-by-URL, respond 201. -/
def serverPUT (s : Server) (url : String) (data : List Nat) : Server × NetResult :=
  ({ s with items := s.items.filter (fun it => !(it.1 == url)) ++ [(url, data)] },
   .success 201)

/-- Behaviour of the remote server as seen through the three request
kinds the scripts issue.  `idealRemote` is the normally-functioning
Radicale instance; other values model servers or networks that fail. -/
structure Remote where
  getR : Server → String → NetResult
  mkcolR : Server → String → String → Server × NetResult
  putR : Server → String → List Nat → Server × NetResult

/-- The normally-functioning remote server. -/
def idealRemote : Remote := ⟨serverGET, serverMKCOL, serverPUT⟩

/-- `ensure_collection_exists` run against a remote, threading server
state.  The boolean outcome agrees with the response-parameterised
embedding (`ensureRemote_snd`); the probe `URLError` case is the
uncaught exception. -/
def ensureRemote (w : Remote) (s : Server) (cpath comp : String) :
    Except Unit (Server × Bool) :=
  match w.getR s cpath with
  | .success _ => .ok (s, true)
  | .urlError => .error ()
  | .httpError c =>
    if c ≠ 404 then .ok (s, true)
    else
      let pr := w.mkcolR s cpath comp
      match pr.2 with
      | .success _ => .ok (pr.1, true)
      | .httpError c2 =>
        if c2 = 403 ∨ c2 = 405 then .ok (pr.1, true) else .ok (pr.1, false)
      | .urlError => .ok (pr.1, false)

/-! ### The ingest endpoint (`IngestHandler.do_POST`) -/

/-- Outbound operations recorded while handling one request:
an `ensure_collection_exists(path, component)` invocation, and a PUT
of a resource URL. -/
inductive Op where
  | ensureCall (cpath comp : String)
  | putCall (url : String)
deriving DecidableEq

/-- Configuration of the ingest service: shared-secret token, base URL
of the remote server, and the destination-address routing table (keys
already lower-cased, paths already `/`-terminated, as the startup
parser builds them). -/
structure IngestConfig where
  ingestToken : String
  baseUrl : String
  calendarMap : List (String × String)
deriving DecidableEq

/-- Python `dict.get` over the routing table built by insertion:
the last entry for a key wins. -/
def dictGet (m : List (String × String)) (k : String) : Option String :=
  (m.reverse.find? (fun e => e.1 == k)).map (fun e => e.2)

/-- One POST request: URL path, token header, destination header,
declared content length, and the parsed MIME parts of the body. -/
structure IngestRequest where
  reqPath : String
  token : String
  destination : String
  contentLength : Nat
  parts : List Part
deriving DecidableEq

/-- Accumulator of the per-attachment loop in `do_POST`. -/
structure LoopState where
  server : Server
  ops : List Op
  pushed : Nat
  errors : List String
deriving DecidableEq

/-- Body of the per-attachment loop in `do_POST`: classify, ensure the
collection for the detected kind, then PUT under the extracted UID;
failures append a description and the loop continues.  A probe
exception inside `ensure_collection_exists` propagates
(`Except.error`). -/
def ingestStep (w : Remote) (base cpath now : String) (st : LoopState)
    (ics : List Nat) : Except Unit LoopState :=
  let comp := detect_component ics
  let st1 := { st with ops := st.ops ++ [Op.ensureCall cpath comp] }
  match ensureRemote w st1.server cpath comp with
  | .error () => .error ()
  | .ok (sv, ok) =>
    if ok then
      let uid := extract_uid ics ("ingest-" ++ now)
      let url := put_url base cpath uid
      let st2 := { st1 with server := sv, ops := st1.ops ++ [Op.putCall url] }
      let pr := w.putR st2.server url ics
      if push_event pr.2 then
        .ok { st2 with server := pr.1, pushed := st2.pushed + 1 }
      else
        .ok { st2 with server := pr.1,
                       errors := st2.errors ++ ["Failed to push UID " ++ uid] }
    else
      .ok { st1 with server := sv,
                     errors := st1.errors ++ ["Cannot ensure collection " ++ cpath] }

/-- The per-attachment loop of `do_POST` over all extracted payloads. -/
def ingestLoop (w : Remote) (base cpath now : String) :
    List (List Nat) → LoopState → Except Unit LoopState
  | [], st => .ok st
  | ics :: rest, st =>
    match ingestStep w base cpath now st ics with
    | .error () => .error ()
    | .ok st2 => ingestLoop w base cpath now rest st2

/-- Outcome of one request: HTTP status and body sent back, final
server state, and the outbound operations performed. -/
structure PostOutcome where
  status : Nat
  body : String
  server : Server
  ops : List Op
deriving DecidableEq

/-- `IngestHandler.do_POST`: the sequential request state machine.
Checks run in source order: URL path, token, destination header
(stripped and lower-cased), routing-table lookup (`if not
collection_path:` also rejects a falsy mapped value), content length,
attachment extraction, then the per-attachment loop; any collected
errors produce a 500 listing them, else a 200 with the push count. -/
def do_POST (w : Remote) (cfg : IngestConfig) (req : IngestRequest)
    (now : String) (s : Server) : Except Unit PostOutcome :=
  if req.reqPath ≠ "/ingest" then .ok ⟨404, "Not found", s, []⟩
  else if req.token ≠ cfg.ingestToken then .ok ⟨403, "Forbidden", s, []⟩
  else
    let destination := pyLower (pyStrip req.destination)
    if destination = "" then .ok ⟨400, "Missing X-Destination header", s, []⟩
    else
      match dictGet cfg.calendarMap destination with
      | none => .ok ⟨422, "No calendar mapped for " ++ destination, s, []⟩
      | some cpath =>
        if cpath = "" then
          .ok ⟨422, "No calendar mapped for " ++ destination, s, []⟩
        else if req.contentLength = 0 then .ok ⟨400, "Empty body", s, []⟩
        else
          let atts := extract_ics_attachments req.parts
          if atts.isEmpty then .ok ⟨200, "OK - no attachments", s, []⟩
          else
            match ingestLoop w cfg.baseUrl cpath now atts ⟨s, [], 0, []⟩ with
            | .error () => .error ()
            | .ok r =>
              if r.errors.isEmpty then
                .ok ⟨200, "OK - pushed " ++ toString r.pushed ++ " event(s)",
                     r.server, r.ops⟩
              else
                .ok ⟨500, "Errors: " ++ String.intercalate "; " r.errors,
                     r.server, r.ops⟩

/-! ### The mailbox poller (`ics-sync.py` `main`) -/

/-- One message in the watched IMAP folder: its Message-ID (the
deduplication key) and its parsed MIME parts. -/
structure SourceMessage where
  msgId : String
  parts : List Part
deriving DecidableEq

/-- Python `line.split(None, 2)`: drop leading whitespace, take up to
two whitespace-delimited tokens, and keep the remainder (with its
leading whitespace removed) as the third element. -/
def pySplitNone2 (l : List Char) : List (List Char) :=
  let l1 := l.dropWhile isPySpace
  if l1.isEmpty then []
  else
    let t1 := l1.takeWhile (fun c => !isPySpace c)
    let r1 := (l1.dropWhile (fun c => !isPySpace c)).dropWhile isPySpace
    if r1.isEmpty then [t1]
    else
      let t2 := r1.takeWhile (fun c => !isPySpace c)
      let r2 := (r1.dropWhile (fun c => !isPySpace c)).dropWhile isPySpace
      if r2.isEmpty then [t1, t2] else [t1, t2, r2]

/-- Startup load of the sync log (`processed_ids`): strip each line,
skip blanks and `#` comments, and for lines of shape
`<date> <time>  <message-id>` record the third field. -/
def processed_ids_load : List String → List String
  | [] => []
  | line :: rest =>
    let l := pyStripL line.data
    if l.isEmpty then processed_ids_load rest
    else if "#".data.isPrefixOf l then processed_ids_load rest
    else
      match pySplitNone2 l with
      | [_, _, c] => String.mk c :: processed_ids_load rest
      | _ => processed_ids_load rest

/-- The log line `log_processed` appends for one message. -/
def log_processed_line (ts msgId : String) : String := ts ++ "  " ++ msgId

/-- Push loop over one message's attachments (`all_succeeded` fold):
every attachment is attempted even after a failure.  An attachment
whose payload did not decode is `none`; reaching it models the
`AttributeError` raised by `extract_uid(None)`, which aborts the whole
run (`Option.none` outcome).  Returns the pushes attempted (message id,
uid, payload) and `some all_succeeded` on normal completion. -/
def pushAtts (po : String → List Nat → Bool) (fb msgId : String) :
    List (Option (List Nat)) → Bool →
      List (String × String × List Nat) × Option Bool
  | [], acc => ([], some acc)
  | none :: _, _ => ([], none)
  | some d :: rest, acc =>
    let uid := extract_uid d fb
    let ok := po uid d
    let r := pushAtts po fb msgId rest (acc && ok)
    ((msgId, uid, d) :: r.1, r.2)

/-- Result of one poll invocation: final in-memory processed set, log
lines appended, messages remaining in the folder, push attempts made,
ids of messages that were parsed (i.e. not skipped by dedup), and
whether the run was aborted by an uncaught exception. -/
structure PollResult where
  processedIds : List String
  logAppends : List String
  mailbox : List SourceMessage
  pushes : List (String × String × List Nat)
  parsedIds : List String
  aborted : Bool
deriving DecidableEq

/-- The message loop of `main` in `ics-sync.py`, over the snapshot of
messages fetched at the start of the run.  `po` is the outcome of
`push_to_radicale` for a given uid and payload (the remote server is
deterministic within one modelled scenario), `fb` the timestamp
fallback uid, `ts` the log timestamp.  A message already in the set is
skipped before parsing; a message with no qualifying attachments is
parsed but left untouched; otherwise all its attachments are pushed
and the message is deleted, logged and added to the set exactly when
every push succeeded.  An undecodable payload aborts the run, keeping
the current and all later messages. -/
def runPoll (po : String → List Nat → Bool) (fb ts : String) :
    List SourceMessage → List String → PollResult
  | [], pids => ⟨pids, [], [], [], [], false⟩
  | m :: rest, pids =>
    if m.msgId ∈ pids then
      let r := runPoll po fb ts rest pids
      { r with mailbox := m :: r.mailbox }
    else
      let atts := sync_attachments m.parts
      if atts.isEmpty then
        let r := runPoll po fb ts rest pids
        { r with mailbox := m :: r.mailbox, parsedIds := m.msgId :: r.parsedIds }
      else
        let pr := pushAtts po fb m.msgId atts true
        match pr.2 with
        | none => ⟨pids, [], m :: rest, pr.1, [m.msgId], true⟩
        | some allOk =>
          if allOk then
            let r := runPoll po fb ts rest (pids ++ [m.msgId])
            { r with logAppends := log_processed_line ts m.msgId :: r.logAppends,
                     pushes := pr.1 ++ r.pushes,
                     parsedIds := m.msgId :: r.parsedIds }
          else
            let r := runPoll po fb ts rest pids
            { r with mailbox := m :: r.mailbox,
                     pushes := pr.1 ++ r.pushes,
                     parsedIds := m.msgId :: r.parsedIds }

/-- Folder and processed-set state after `n` successive poll
invocations (nothing else touching the mailbox or the log between
runs). -/
def pollIterate (po : String → List Nat → Bool) (fb ts : String) :
    Nat → List SourceMessage → List String →
      List SourceMessage × List String
  | 0, mailbox, pids => (mailbox, pids)
  | n + 1, mailbox, pids =>
    let r := runPoll po fb ts mailbox pids
    pollIterate po fb ts n r.mailbox r.processedIds

/-! ### Concrete material for claim instances -/

/-- ASCII text to bytes, for building concrete payloads and emails. -/
def strBytes (s : String) : List Nat := s.data.map Char.toNat

/-- A payload containing both a VTODO block and a VEVENT block. -/
def mixedPayload : List Nat :=
  strBytes
    "BEGIN:VCALENDAR\nBEGIN:VTODO\nUID:t1\nEND:VTODO\nBEGIN:VEVENT\nUID:e1\nEND:VEVENT\nEND:VCALENDAR"

/-- A remote whose collection probe answers 404, whose creation
request fails with a server error, and whose writes fail with a
transport error. -/
def refusedRemote : Remote :=
  ⟨fun _ _ => NetResult.httpError 404,
   fun s _ _ => (s, NetResult.httpError 500),
   fun s _ _ => (s, NetResult.urlError)⟩

/-- Ingest configuration for the mixed-email scenario. -/
def cfgC1 : IngestConfig :=
  ⟨"tok", "http://radicale:5232", [("cal@example.org", "/nate/cal/")]⟩

/-- A VEVENT payload with UID `ev1`. -/
def icsC1e : List Nat :=
  strBytes "BEGIN:VCALENDAR\nBEGIN:VEVENT\nUID:ev1\nEND:VEVENT\nEND:VCALENDAR"

/-- A VTODO payload with UID `td1`. -/
def icsC1t : List Nat :=
  strBytes "BEGIN:VCALENDAR\nBEGIN:VTODO\nUID:td1\nEND:VTODO\nEND:VCALENDAR"

/-- A VEVENT attachment. -/
def partC1e : Part := ⟨"text/calendar", some "e.ics", some icsC1e⟩

/-- A VTODO attachment (qualifying by filename). -/
def partC1t : Part := ⟨"application/octet-stream", some "t.ics", some icsC1t⟩

/-- A POST request whose email carries one VEVENT and one VTODO
attachment for the same mapped destination. -/
def reqC1 : IngestRequest :=
  ⟨"/ingest", "tok", "cal@example.org", 256, [partC1e, partC1t]⟩

/-! ## Lemmas and claim verification -/

theorem toNat_ofNat_valid (n : Nat) (h : n.isValidChar) :
    (Char.ofNat n).toNat = n := by
  rw [Char.ofNat, dif_pos h]
  rfl

theorem char_toNat_valid (c : Char) :
    c.toNat < 0xD800 ∨ (0xDFFF < c.toNat ∧ c.toNat < 0x110000) := c.valid

theorem utf8go_enc1 (fuel v : Nat) (hv : v < 0x80) (rest : List Nat) :
    utf8go (fuel + 1) (v :: rest) = Char.ofNat v :: utf8go fuel rest := by
  simp [utf8go, hv]

theorem utf8go_enc2 (fuel v : Nat) (h1 : 0x80 ≤ v) (h2 : v < 0x800)
    (rest : List Nat) :
    utf8go (fuel + 1) ((0xC0 + v / 64) :: (0x80 + v % 64) :: rest) =
      Char.ofNat v :: utf8go fuel rest := by
  have e : (0xC0 + v / 64 - 0xC0) * 64 + (0x80 + v % 64 - 0x80) = v := by omega
  simp only [utf8go]
  rw [if_neg (by omega), if_pos (by simp; omega), if_pos (by simp; omega), e]

theorem utf8go_enc3 (fuel v : Nat) (h1 : 0x800 ≤ v) (h2 : v < 0x10000)
    (h3 : v < 0xD800 ∨ 0xDFFF < v) (rest : List Nat) :
    utf8go (fuel + 1)
        ((0xE0 + v / 4096) :: (0x80 + v / 64 % 64) :: (0x80 + v % 64) :: rest) =
      Char.ofNat v :: utf8go fuel rest := by
  have e : (0xE0 + v / 4096 - 0xE0) * 4096 + (0x80 + v / 64 % 64 - 0x80) * 64 +
      (0x80 + v % 64 - 0x80) = v := by omega
  simp only [utf8go]
  rw [if_neg (by omega), if_neg (by simp; omega), if_pos (by simp; omega),
    if_pos (by simp only [Bool.and_eq_true, decide_eq_true_eq]; split_ifs <;> omega), e]

theorem utf8go_enc4 (fuel v : Nat) (h1 : 0x10000 ≤ v) (h2 : v < 0x110000)
    (rest : List Nat) :
    utf8go (fuel + 1)
        ((0xF0 + v / 0x40000) :: (0x80 + v / 4096 % 64) ::
          (0x80 + v / 64 % 64) :: (0x80 + v % 64) :: rest) =
      Char.ofNat v :: utf8go fuel rest := by
  have e : (0xF0 + v / 0x40000 - 0xF0) * 0x40000 +
      (0x80 + v / 4096 % 64 - 0x80) * 4096 +
      (0x80 + v / 64 % 64 - 0x80) * 64 + (0x80 + v % 64 - 0x80) = v := by omega
  simp only [utf8go]
  rw [if_neg (by omega), if_neg (by simp; omega), if_neg (by simp; omega),
    if_pos (by simp; omega),
    if_pos (by simp only [Bool.and_eq_true, decide_eq_true_eq]; split_ifs <;> omega), e]

theorem utf8go_encodeChar (fuel : Nat) (c : Char) (rest : List Nat) :
    utf8go (fuel + 1) (utf8EncodeChar c ++ rest) = c :: utf8go fuel rest := by
  have hv := char_toNat_valid c
  rw [utf8EncodeChar]
  by_cases ha : c.toNat < 0x80
  · rw [if_pos ha]
    simp [utf8go_enc1 fuel c.toNat ha rest, Char.ofNat_toNat]
  · by_cases hb : c.toNat < 0x800
    · rw [if_neg ha, if_pos hb]
      simp [utf8go_enc2 fuel c.toNat (by omega) hb rest, Char.ofNat_toNat]
    · by_cases hc : c.toNat < 0x10000
      · rw [if_neg ha, if_neg hb, if_pos hc]
        simp [utf8go_enc3 fuel c.toNat (by omega) hc (by omega) rest,
          Char.ofNat_toNat]
      · rw [if_neg ha, if_neg hb, if_neg hc]
        simp [utf8go_enc4 fuel c.toNat (by omega) (by omega) rest,
          Char.ofNat_toNat]

theorem utf8go_encode (cs : List Char) :
    ∀ fuel, cs.length ≤ fuel → utf8go fuel (utf8Encode cs) = cs := by
  induction cs with
  | nil => intro fuel _; cases fuel <;> rfl
  | cons c cs ih =>
    intro fuel hf
    match fuel, hf with
    | fuel + 1, hf =>
      rw [utf8Encode, utf8go_encodeChar, ih fuel (by simpa using Nat.lt_succ_iff.mp hf)]

theorem utf8EncodeChar_length_pos (c : Char) : 1 ≤ (utf8EncodeChar c).length := by
  rw [utf8EncodeChar]
  split_ifs <;> simp

theorem utf8Encode_length (cs : List Char) : cs.length ≤ (utf8Encode cs).length := by
  induction cs with
  | nil => simp [utf8Encode]
  | cons c cs ih =>
    rw [utf8Encode, List.length_append]
    have := utf8EncodeChar_length_pos c
    simp only [List.length_cons]
    omega

/-- Decoding a UTF-8 encoded character list gives it back: the
`errors="replace"` decoder is a left inverse of the encoder. -/
theorem utf8DecodeReplace_encode (cs : List Char) :
    utf8DecodeReplace (utf8Encode cs) = cs :=
  utf8go_encode cs _ (utf8Encode_length cs)

theorem utf8Encode_inj {a b : List Char} (h : utf8Encode a = utf8Encode b) :
    a = b := by
  have ha := utf8DecodeReplace_encode a
  rw [h, utf8DecodeReplace_encode b] at ha
  exact ha.symm

theorem utf8EncodeChar_lt_256 (c : Char) : ∀ x ∈ utf8EncodeChar c, x < 256 := by
  have hv := char_toNat_valid c
  rw [utf8EncodeChar]
  split_ifs <;> (intro x hx; simp at hx; rcases hx with h | h | h | h <;> omega)

theorem utf8Encode_lt_256 (cs : List Char) : ∀ x ∈ utf8Encode cs, x < 256 := by
  induction cs with
  | nil => simp [utf8Encode]
  | cons c cs ih =>
    intro x hx
    rw [utf8Encode, List.mem_append] at hx
    rcases hx with h | h
    · exact utf8EncodeChar_lt_256 c x h
    · exact ih x h

theorem unhex_hex (x : Nat) (hx : x < 16) : unhexDigit (hexDigit x) = x := by
  rw [hexDigit, unhexDigit]
  by_cases h : x < 10
  · rw [if_pos h, toNat_ofNat_valid _ (Or.inl (by omega)), if_pos (by simp; omega)]
    omega
  · rw [if_neg h, toNat_ofNat_valid _ (Or.inl (by omega)), if_neg (by simp; omega)]
    omega

theorem hexDigit_ne_percent (x : Nat) (hx : x < 16) : hexDigit x ≠ '%' := by
  intro h
  have h2 := congrArg Char.toNat h
  have h37 : Char.toNat '%' = 37 := rfl
  rw [hexDigit, h37] at h2
  split_ifs at h2 <;>
    (rw [toNat_ofNat_valid _ (Or.inl (by omega))] at h2; omega)

theorem punquoteBytes_cons (c : Char) (hc : ¬c = '%') (rest : List Char) :
    punquoteBytes (c :: rest) = c.toNat :: punquoteBytes rest := by
  cases rest with
  | nil => simp [punquoteBytes, hc]
  | cons d rest2 =>
    cases rest2 with
    | nil => simp [punquoteBytes, hc]
    | cons e rest3 => simp [punquoteBytes, hc]

theorem punquoteBytes_esc (h1 h2 : Char) (rest : List Char) :
    punquoteBytes ('%' :: h1 :: h2 :: rest) =
      (unhexDigit h1 * 16 + unhexDigit h2) :: punquoteBytes rest := by
  simp [punquoteBytes]

theorem punquote_pquote (bs : List Nat) (h : ∀ b ∈ bs, b < 256) :
    punquoteBytes (pquoteBytes bs) = bs := by
  induction bs with
  | nil => rfl
  | cons b rest ih =>
    have hb : b < 256 := h b (by simp)
    have hrest : ∀ x ∈ rest, x < 256 := fun x hx => h x (by simp [hx])
    rw [pquoteBytes]
    by_cases hu : isUnreserved b = true
    · rw [if_pos hu,
        punquoteBytes_cons _ (by
          intro hc
          have h2 := congrArg Char.toNat hc
          have h37 : Char.toNat '%' = 37 := rfl
          rw [toNat_ofNat_valid _ (Or.inl (by omega)), h37] at h2
          rw [isUnreserved, h2] at hu
          simp at hu),
        toNat_ofNat_valid _ (Or.inl (by omega)), ih hrest]
    · rw [if_neg hu, punquoteBytes_esc,
        unhex_hex _ (by omega), unhex_hex _ (by omega), ih hrest]
      have hv : b / 16 % 16 * 16 + b % 16 = b := by omega
      rw [hv]

theorem pquoteBytes_inj {a b : List Nat} (ha : ∀ x ∈ a, x < 256)
    (hb : ∀ x ∈ b, x < 256) (h : pquoteBytes a = pquoteBytes b) : a = b := by
  have := punquote_pquote a ha
  rw [h, punquote_pquote b hb] at this
  exact this.symm

/-- `urllib.parse.quote(_, safe="")` is injective on Python strings, so
distinct UIDs produce distinct resource names. -/
theorem pquote_inj {s t : String} (h : pquote s = pquote t) : s = t := by
  rw [pquote, pquote] at h
  have hb := congrArg String.data h
  simp only [String.data] at hb
  have henc := pquoteBytes_inj (utf8Encode_lt_256 s.data)
    (utf8Encode_lt_256 t.data) hb
  have hdata := utf8Encode_inj henc
  exact congrArg String.mk hdata

/-- The state-threaded run returns exactly what
`ensure_collection_exists` decides from the two responses. -/
theorem ensureRemote_snd (w : Remote) (s : Server) (cpath comp : String) :
    (ensureRemote w s cpath comp).map Prod.snd =
      ensure_collection_exists (w.getR s cpath) (w.mkcolR s cpath comp).2 := by
  cases hg : w.getR s cpath with
  | success st => simp [ensureRemote, ensure_collection_exists, hg, Except.map]
  | urlError => simp [ensureRemote, ensure_collection_exists, hg, Except.map]
  | httpError c =>
    by_cases h : c = 404
    · cases hm : (w.mkcolR s cpath comp).2 with
      | success st =>
        simp [ensureRemote, ensure_collection_exists, hg, hm, h, Except.map]
      | urlError =>
        simp [ensureRemote, ensure_collection_exists, hg, hm, h, Except.map]
      | httpError c2 =>
        by_cases h2 : c2 = 403 ∨ c2 = 405 <;>
          simp [ensureRemote, ensure_collection_exists, hg, hm, h, h2, Except.map]
    · simp [ensureRemote, ensure_collection_exists, hg, h, Except.map]

/-- Against the ideal server, `ensure_collection_exists` never raises
and never fails: the probe answers 200 or 404 and creation succeeds. -/
theorem ensureRemote_ideal (s : Server) (cpath comp : String) :
    ensureRemote idealRemote s cpath comp =
      .ok (if serverHasCol s cpath then s
           else { s with collections := s.collections ++ [(cpath, comp)] },
           true) := by
  rw [ensureRemote, idealRemote]
  by_cases h : serverHasCol s cpath = true
  · simp only [serverGET, if_pos h, h]
    rfl
  · simp only [serverGET, serverMKCOL, if_neg h, h]
    rfl

/-! ### Helper lemmas for the claims -/

theorem detect_go_iff (ls : List (List Char)) :
    detect_component_go ls = "VTODO" ↔
      ∃ l ∈ ls, pyStripL l = "BEGIN:VTODO".data := by
  induction ls with
  | nil => simp [detect_component_go]
  | cons l ls ih =>
    rw [detect_component_go]
    by_cases h : pyStripL l = "BEGIN:VTODO".data
    · simp [h]
    · simp [h, ih]

theorem detect_go_cases (ls : List (List Char)) :
    detect_component_go ls = "VTODO" ∨ detect_component_go ls = "VEVENT" := by
  induction ls with
  | nil => simp [detect_component_go]
  | cons l ls ih =>
    rw [detect_component_go]
    by_cases h : pyStripL l = "BEGIN:VTODO".data
    · simp [h]
    · simp [h, ih]

theorem extract_uid_go_spec (fb : String) (ls : List (List Char)) :
    extract_uid_go fb ls =
      (match ls.find? (fun l => "UID:".data.isPrefixOf l) with
       | some l => String.mk (pyStripL (l.drop 4))
       | none => fb) := by
  induction ls with
  | nil => rfl
  | cons l ls ih =>
    rw [extract_uid_go]
    by_cases h : "UID:".data.isPrefixOf l = true
    · simp [List.find?, h]
    · simp [List.find?, h, ih]

theorem pyStripL_all_space (l : List Char) (h : l.all isPySpace) :
    pyStripL l = [] := by
  have h1 : l.dropWhile isPySpace = [] := by
    rw [List.dropWhile_eq_nil_iff]
    intro x hx
    exact (List.all_eq_true.mp h) x hx
  rw [pyStripL, h1]
  rfl

/-! ### C3 -/

/-- C3: for every probe outcome that is an HTTP response or HTTP error
status (transport-level probe errors instead raise, see the C4
correction), `ensure_collection_exists` returns true when the probe
yields any outcome other than 404, or the creation request succeeds, or
fails with 403 or 405; and it returns false exactly when the creation
request fails with any other status or a transport-level error. -/
theorem claim_C3_ensure_outcomes (probe mkcol : NetResult)
    (hprobe : probe ≠ NetResult.urlError) :
    (ensure_collection_exists probe mkcol = .ok true ↔
      ((∃ st, probe = .success st) ∨
       (∃ c, probe = .httpError c ∧ c ≠ 404) ∨
       (probe = .httpError 404 ∧
         ((∃ st, mkcol = .success st) ∨ mkcol = .httpError 403 ∨
           mkcol = .httpError 405)))) ∧
    (ensure_collection_exists probe mkcol = .ok false ↔
      (probe = .httpError 404 ∧
        ((∃ c, mkcol = .httpError c ∧ c ≠ 403 ∧ c ≠ 405) ∨
          mkcol = NetResult.urlError))) := by
  cases probe with
  | urlError => exact absurd rfl hprobe
  | success st => simp [ensure_collection_exists]
  | httpError c =>
    by_cases hc : c = 404
    · subst hc
      cases mkcol with
      | success st => simp [ensure_collection_exists]
      | urlError => simp [ensure_collection_exists]
      | httpError c2 =>
        by_cases h2 : c2 = 403 ∨ c2 = 405 <;>
          simp [ensure_collection_exists, h2] <;> tauto
    · simp [ensure_collection_exists, hc]

/-- C3 witness: at probe 404 and creation 405 the ensure step reports
success (already exists). -/
theorem claim_C3_witness :
    (ensure_collection_exists (NetResult.httpError 404)
        (NetResult.httpError 405) = .ok true ↔
      ((∃ st, NetResult.httpError 404 = NetResult.success st) ∨
       (∃ c, NetResult.httpError 404 = NetResult.httpError c ∧ c ≠ 404) ∨
       (NetResult.httpError 404 = NetResult.httpError 404 ∧
         ((∃ st, NetResult.httpError 405 = NetResult.success st) ∨
           NetResult.httpError 405 = NetResult.httpError 403 ∨
           NetResult.httpError 405 = NetResult.httpError 405)))) ∧
    (ensure_collection_exists (NetResult.httpError 404)
        (NetResult.httpError 405) = .ok false ↔
      (NetResult.httpError 404 = NetResult.httpError 404 ∧
        ((∃ c, NetResult.httpError 405 = NetResult.httpError c ∧
            c ≠ 403 ∧ c ≠ 405) ∨
          NetResult.httpError 405 = NetResult.urlError))) :=
  claim_C3_ensure_outcomes (NetResult.httpError 404) (NetResult.httpError 405)
    (by decide)

/-! ### C4 -/

/-- C4 counterexample: a transport-level error (connection refused)
during the collection existence probe does not become a logged boolean
failure — it propagates out of `ensure_collection_exists` as an
uncaught exception, because the probe `try` catches only `HTTPError`. -/
theorem claim_C4_counterexample :
    ensure_collection_exists NetResult.urlError (NetResult.success 201) =
      Except.error () := rfl

/-- C4 (amended): failures during collection creation and object write
— including transport-level errors — are returned as boolean failures
and appended to the per-request error list that the aggregated response
reports; `push_event` never raises on any outcome.  Transport-level
errors during the existence probe, however, propagate as an uncaught
exception out of `ensure_collection_exists`. -/
theorem claim_C4_remote_failures (probe mkcol : NetResult) (code : Nat)
    (w : Remote) (base cpath now : String) (st : LoopState) (ics : List Nat)
    (sv : Server) (hprobe : probe ≠ NetResult.urlError) :
    (∃ b, ensure_collection_exists probe mkcol = .ok b) ∧
    (probe = NetResult.httpError 404 ∧ mkcol = NetResult.urlError →
      ensure_collection_exists probe mkcol = .ok false) ∧
    push_event NetResult.urlError = false ∧
    push_event (NetResult.httpError code) = false ∧
    (ensureRemote w st.server cpath (detect_component ics) = .ok (sv, false) →
      (ingestStep w base cpath now st ics).map LoopState.errors =
        .ok (st.errors ++ ["Cannot ensure collection " ++ cpath])) ∧
    (ensureRemote w st.server cpath (detect_component ics) = .ok (sv, true) →
      push_event (w.putR sv
          (put_url base cpath (extract_uid ics ("ingest-" ++ now))) ics).2
        = false →
      (ingestStep w base cpath now st ics).map LoopState.errors =
        .ok (st.errors ++
          ["Failed to push UID " ++ extract_uid ics ("ingest-" ++ now)])) := by
  refine ⟨?_, ?_, rfl, rfl, ?_, ?_⟩
  · cases probe with
    | urlError => exact absurd rfl hprobe
    | success s2 => exact ⟨true, rfl⟩
    | httpError c =>
      by_cases hc : c = 404
      · subst hc
        cases mkcol with
        | success s2 => exact ⟨true, rfl⟩
        | urlError => exact ⟨false, rfl⟩
        | httpError c2 =>
          by_cases h2 : c2 = 403 ∨ c2 = 405
          · exact ⟨true, by simp [ensure_collection_exists, h2]⟩
          · exact ⟨false, by simp [ensure_collection_exists, h2]⟩
      · exact ⟨true, by simp [ensure_collection_exists, hc]⟩
  · rintro ⟨hp, hm⟩
    subst hp; subst hm
    rfl
  · intro hens
    simp only [ingestStep]
    rw [hens]
    rfl
  · intro hens hpush
    simp only [ingestStep]
    rw [hens]
    simp only [if_pos rfl, hpush]
    rfl

/-- C4 witness: against a remote that answers the probe with 404 and
fails creation with a 500, the ensure step returns a boolean false and
the loop appends the describing error string. -/
theorem claim_C4_witness :
    (∃ b, ensure_collection_exists (NetResult.httpError 404)
        NetResult.urlError = .ok b) ∧
    (ingestStep refusedRemote "http://radicale:5232" "/nate/c/" "now"
        ⟨⟨[], []⟩, [], 0, []⟩ (strBytes "BEGIN:VEVENT")).map LoopState.errors =
      .ok ["Cannot ensure collection /nate/c/"] := by
  have h := claim_C4_remote_failures (NetResult.httpError 404)
    NetResult.urlError 500 refusedRemote "http://radicale:5232" "/nate/c/"
    "now" ⟨⟨[], []⟩, [], 0, []⟩ (strBytes "BEGIN:VEVENT") ⟨[], []⟩ (by decide)
  exact ⟨h.1, h.2.2.2.2.1 rfl⟩

/-! ### C6 -/

/-- C6: `detect_component` classifies a payload as VTODO exactly when
some line of the payload — decoded as UTF-8 with replacement, split
into lines, and trimmed — equals `BEGIN:VTODO`, and as VEVENT
otherwise; it always returns one of the two (total, never raises, on
arbitrary byte input).  A payload containing both a VTODO and a VEVENT
block is classified VTODO. -/
theorem claim_C6_detect_component (ics : List Nat) :
    (detect_component ics = "VTODO" ↔
      ∃ l ∈ pySplitlines (utf8DecodeReplace ics),
        pyStripL l = "BEGIN:VTODO".data) ∧
    (detect_component ics = "VEVENT" ↔
      ¬∃ l ∈ pySplitlines (utf8DecodeReplace ics),
        pyStripL l = "BEGIN:VTODO".data) ∧
    (detect_component ics = "VTODO" ∨ detect_component ics = "VEVENT") ∧
    detect_component mixedPayload = "VTODO" := by
  have hiff := detect_go_iff (pySplitlines (utf8DecodeReplace ics))
  have hcases := detect_go_cases (pySplitlines (utf8DecodeReplace ics))
  refine ⟨hiff, ?_, hcases, by decide⟩
  constructor
  · intro h hex
    have hv := hiff.mpr hex
    rw [detect_component] at h
    rw [h] at hv
    exact absurd hv (by decide)
  · intro hno
    rcases hcases with h | h
    · exact absurd (hiff.mp h) hno
    · exact h

/-! ### C9 -/

/-- C9: when the first `UID:` line of a payload has only whitespace
after the colon, `extract_uid` returns the empty string — not the
timestamp fallback, which is reserved for payloads with no `UID:` line
at all (an empty payload, for instance, yields the fallback) — and the
pushed resource URL degenerates to the collection path followed by the
bare `.ics` extension. -/
theorem claim_C9_blank_uid (ics : List Nat) (fb base cpath : String)
    (l0 : List Char)
    (hfind : (pySplitlines (utf8DecodeReplace ics)).find?
        (fun l => "UID:".data.isPrefixOf l) = some l0)
    (hblank : (l0.drop 4).all isPySpace) :
    extract_uid ics fb = "" ∧
    put_url base cpath (extract_uid ics fb) = base ++ cpath ++ ".ics" ∧
    extract_uid [] fb = fb := by
  have he : extract_uid ics fb = "" := by
    rw [extract_uid, extract_uid_go_spec, hfind]
    simp only [pyStripL_all_space _ hblank]
  refine ⟨he, ?_, rfl⟩
  rw [he, put_url]
  have hq : pquote "" = "" := rfl
  rw [hq]
  have : base ++ cpath ++ "" = base ++ cpath := by simp
  rw [this]

/-- C9 witness: a concrete payload whose `UID:` line carries only
spaces pushes to `<path>.ics`. -/
theorem claim_C9_witness :
    extract_uid (strBytes "UID:   \nBEGIN:VEVENT\nEND:VEVENT")
        "ingest-20240101T000000Z" = "" ∧
    put_url "http://radicale:5232" "/nate/bounce_calendar/"
        (extract_uid (strBytes "UID:   \nBEGIN:VEVENT\nEND:VEVENT")
          "ingest-20240101T000000Z") =
      "http://radicale:5232" ++ "/nate/bounce_calendar/" ++ ".ics" ∧
    extract_uid [] "ingest-20240101T000000Z" = "ingest-20240101T000000Z" :=
  claim_C9_blank_uid (strBytes "UID:   \nBEGIN:VEVENT\nEND:VEVENT")
    "ingest-20240101T000000Z" "http://radicale:5232" "/nate/bounce_calendar/"
    "UID:   ".data (by decide) (by decide)

/-! ### C5 -/

/-- C5 counterexample: a part whose filename ends in `.ICS` (upper
case) with a non-calendar content type qualifies in the HTTP-ingest
variant but not in the mailbox-poll variant — the extension test is
case-insensitive only in `ingest.py`; `ics-sync.py` compares the
filename as-is. -/
theorem claim_C5_counterexample :
    ingestQualifies
        ⟨"application/octet-stream", some "event.ICS",
         some (strBytes "BEGIN:VEVENT")⟩ = true ∧
    syncQualifies
        ⟨"application/octet-stream", some "event.ICS",
         some (strBytes "BEGIN:VEVENT")⟩ = false := by
  constructor <;> rfl

/-- C5 (amended): a part qualifies iff its content type is
`text/calendar` or its filename ends in `.ics`, where the extension is
compared case-insensitively in the HTTP-ingest variant but
case-sensitively in the mailbox-poll variant; qualifying parts with a
missing or empty decoded payload are skipped silently by the
HTTP-ingest variant, while the mailbox-poll variant collects one entry
per qualifying part regardless (including undecodable `None`
payloads). -/
theorem claim_C5_qualification (p : Part) (parts : List Part) :
    (ingestQualifies p = true ↔
      (p.contentType = "text/calendar" ∨
        (".ics".data).isSuffixOf (pyLower (p.filename.getD "")).data = true)) ∧
    (syncQualifies p = true ↔
      (p.contentType = "text/calendar" ∨
        (".ics".data).isSuffixOf (p.filename.getD "").data = true)) ∧
    extract_ics_attachments parts =
      ((parts.filter ingestQualifies).filterMap Part.payload).filter
        (fun d => !d.isEmpty) ∧
    sync_attachments parts = (parts.filter syncQualifies).map Part.payload := by
  refine ⟨?_, ?_, ?_, ?_⟩
  · simp [ingestQualifies]
  · simp [syncQualifies]
  · induction parts with
    | nil => rfl
    | cons q rest ih =>
      rw [extract_ics_attachments]
      by_cases hq : ingestQualifies q = true
      · cases hp : q.payload with
        | none => simp [hq, hp, ih]
        | some d =>
          by_cases hd : d.isEmpty = true <;>
            simp [hq, hp, hd, ih, List.filterMap_cons, List.filter_cons]
      · simp [hq, ih, List.filter_cons]
  · induction parts with
    | nil => rfl
    | cons q rest ih =>
      rw [sync_attachments]
      by_cases hq : syncQualifies q = true <;> simp [hq, ih, List.filter_cons]

/-! ### C8 -/

/-- C8: a POST to `/ingest` carrying the correct shared-secret token
and a non-empty destination whose (stripped, lower-cased) address is
not in the routing table is answered 422 — a status distinct from the
400 of a malformed request and the 403 of a bad token — with no
outbound operation performed and the remote server state untouched. -/
theorem claim_C8_unmapped_destination (w : Remote) (cfg : IngestConfig)
    (req : IngestRequest) (now : String) (s : Server)
    (hpath : req.reqPath = "/ingest") (htok : req.token = cfg.ingestToken)
    (hne : pyLower (pyStrip req.destination) ≠ "")
    (hmap : dictGet cfg.calendarMap (pyLower (pyStrip req.destination)) = none) :
    do_POST w cfg req now s =
      .ok ⟨422, "No calendar mapped for " ++ pyLower (pyStrip req.destination),
           s, []⟩ := by
  simp [do_POST, hpath, htok, hne, hmap]

/-- C8 witness: destination `nobody@example.org` against a one-entry
routing table. -/
theorem claim_C8_witness :
    do_POST idealRemote ⟨"tok", "http://radicale:5232", [("a@b.c", "/cal/")]⟩
        ⟨"/ingest", "tok", "nobody@example.org", 10, []⟩ "now" ⟨[], []⟩ =
      .ok ⟨422, "No calendar mapped for " ++
             pyLower (pyStrip "nobody@example.org"), ⟨[], []⟩, []⟩ :=
  claim_C8_unmapped_destination idealRemote
    ⟨"tok", "http://radicale:5232", [("a@b.c", "/cal/")]⟩
    ⟨"/ingest", "tok", "nobody@example.org", 10, []⟩ "now" ⟨[], []⟩
    rfl rfl (by decide) (by decide)

/-! ### C2 -/

theorem pushAtts_decodable (po : String → List Nat → Bool) (fb msgId : String)
    (as : List (List Nat)) (acc : Bool) :
    pushAtts po fb msgId (as.map some) acc =
      (as.map (fun d => (msgId, extract_uid d fb, d)),
       some (acc && as.all (fun d => po (extract_uid d fb) d))) := by
  induction as generalizing acc with
  | nil => simp [pushAtts]
  | cons d rest ih => simp [pushAtts, ih, Bool.and_assoc]

/-- C2: a message with k ≥ 1 decodable calendar attachments reached by
the poll loop is deleted from the folder, its identifier appended to
the delivery log, and added to the in-memory set, **iff** every one of
its pushes succeeded; on any push failure none of the three changes
happens — the message stays in the folder, nothing is logged, and the
set is unchanged — leaving it eligible for a full retry. -/
theorem claim_C2_all_or_nothing (po : String → List Nat → Bool)
    (fb ts : String) (m : SourceMessage) (pids : List String)
    (as : List (List Nat))
    (hskip : m.msgId ∉ pids)
    (hatts : sync_attachments m.parts = as.map some)
    (hk : as ≠ []) :
    (runPoll po fb ts [m] pids =
        ⟨pids ++ [m.msgId], [log_processed_line ts m.msgId], [],
         as.map (fun d => (m.msgId, extract_uid d fb, d)), [m.msgId], false⟩ ↔
      as.all (fun d => po (extract_uid d fb) d) = true) ∧
    (as.all (fun d => po (extract_uid d fb) d) = false →
      runPoll po fb ts [m] pids =
        ⟨pids, [], [m], as.map (fun d => (m.msgId, extract_uid d fb, d)),
         [m.msgId], false⟩) := by
  have hm : (as.map some).isEmpty = false := by
    cases as with
    | nil => exact absurd rfl hk
    | cons a r => rfl
  by_cases hall : as.all (fun d => po (extract_uid d fb) d) = true
  · constructor
    · simp only [hall, iff_true]
      simp [runPoll, hskip, hatts, hm, pushAtts_decodable, hall]
    · intro hfalse
      simp [hfalse] at hall
  · have hfalse : as.all (fun d => po (extract_uid d fb) d) = false := by
      simpa using hall
    constructor
    · simp only [hfalse, Bool.false_eq_true, iff_false]
      intro heq
      have hmb := congrArg PollResult.mailbox heq
      simp [runPoll, hskip, hatts, hm, pushAtts_decodable, hfalse] at hmb
    · intro _
      simp [runPoll, hskip, hatts, hm, pushAtts_decodable, hfalse]

/-- C2 witness: one message with a single attachment whose push fails
is neither deleted, nor logged, nor marked processed. -/
theorem claim_C2_witness :
    (runPoll (fun _ _ => false) "fb" "2024-01-01 00:00:00"
        [⟨"<m1@x>", [⟨"text/calendar", none,
            some (strBytes "BEGIN:VEVENT\nUID:u1\nEND:VEVENT")⟩]⟩] [] =
        ⟨[] ++ ["<m1@x>"], [log_processed_line "2024-01-01 00:00:00" "<m1@x>"],
         [],
         [(strBytes "BEGIN:VEVENT\nUID:u1\nEND:VEVENT")].map
           (fun d => ("<m1@x>", extract_uid d "fb", d)), ["<m1@x>"], false⟩ ↔
      [(strBytes "BEGIN:VEVENT\nUID:u1\nEND:VEVENT")].all
        (fun _ => false) = true) ∧
    ([(strBytes "BEGIN:VEVENT\nUID:u1\nEND:VEVENT")].all
        (fun _ => false) = false →
      runPoll (fun _ _ => false) "fb" "2024-01-01 00:00:00"
        [⟨"<m1@x>", [⟨"text/calendar", none,
            some (strBytes "BEGIN:VEVENT\nUID:u1\nEND:VEVENT")⟩]⟩] [] =
        ⟨[], [], [⟨"<m1@x>", [⟨"text/calendar", none,
            some (strBytes "BEGIN:VEVENT\nUID:u1\nEND:VEVENT")⟩]⟩],
         [(strBytes "BEGIN:VEVENT\nUID:u1\nEND:VEVENT")].map
           (fun d => ("<m1@x>", extract_uid d "fb", d)), ["<m1@x>"], false⟩) :=
  claim_C2_all_or_nothing (fun _ _ => false) "fb" "2024-01-01 00:00:00"
    ⟨"<m1@x>", [⟨"text/calendar", none,
        some (strBytes "BEGIN:VEVENT\nUID:u1\nEND:VEVENT")⟩]⟩ []
    [strBytes "BEGIN:VEVENT\nUID:u1\nEND:VEVENT"]
    (by decide) rfl (by decide)

/-! ### C1 -/

/-- Resource names built from distinct UIDs under the same collection
are distinct. -/
theorem put_url_inj (base cpath : String) (u1 u2 : String)
    (h : put_url base cpath u1 = put_url base cpath u2) : u1 = u2 := by
  rw [put_url, put_url] at h
  have hd := congrArg String.data h
  simp only [String.data_append, List.append_assoc] at hd
  have h1 := List.append_cancel_left hd
  have h2 := List.append_cancel_left h1
  have h3 : (pquote u1).data = (pquote u2).data := List.append_cancel_right h2
  exact pquote_inj (congrArg String.mk h3)

/-- The per-attachment loop on two payloads with distinct resource
names, against an initially empty ideal server: the first ensure
creates the collection typed for the first payload's kind, the second
finds it present, and both payloads are stored. -/
theorem ingestLoop_two (base cpath now : String) (a1 a2 : List Nat)
    (hurlne : put_url base cpath (extract_uid a1 ("ingest-" ++ now)) ≠
      put_url base cpath (extract_uid a2 ("ingest-" ++ now))) :
    ingestLoop idealRemote base cpath now [a1, a2] ⟨⟨[], []⟩, [], 0, []⟩ =
      .ok ⟨⟨[(cpath, detect_component a1)],
            [(put_url base cpath (extract_uid a1 ("ingest-" ++ now)), a1),
             (put_url base cpath (extract_uid a2 ("ingest-" ++ now)), a2)]⟩,
           [Op.ensureCall cpath (detect_component a1),
            Op.putCall (put_url base cpath (extract_uid a1 ("ingest-" ++ now))),
            Op.ensureCall cpath (detect_component a2),
            Op.putCall (put_url base cpath (extract_uid a2 ("ingest-" ++ now)))],
           2, []⟩ := by
  have hbeq : (put_url base cpath (extract_uid a1 ("ingest-" ++ now)) ==
      put_url base cpath (extract_uid a2 ("ingest-" ++ now))) = false :=
    beq_eq_false_iff_ne.mpr hurlne
  have hput : idealRemote.putR = serverPUT := rfl
  simp [ingestLoop, ingestStep, ensureRemote_ideal, hput, serverHasCol,
    serverPUT, push_event, hbeq]

/-- C1 counterexample: the spec's mixed email (one VEVENT, one VTODO,
same mapped address) does **not** produce two collections.  Starting
from an empty server the request creates exactly one collection at the
mapped path — typed for the first payload's kind — while both payloads
are pushed into it as two resources.  The per-address path is shared,
so the second ensure call finds the collection already present. -/
theorem claim_C1_counterexample :
    (do_POST idealRemote cfgC1 reqC1 "20250101T000000Z" ⟨[], []⟩).map
        (fun r => (r.server.collections, r.server.items.length)) =
      .ok ([("/nate/cal/", "VEVENT")], 2) := rfl

/-- C1 (amended): for a POST /ingest request whose email yields exactly
one VEVENT payload and one VTODO payload for the same mapped
destination, and whose payloads carry distinct UIDs, processing against
an initially empty server invokes the ensure-collection step once per
payload with that payload's detected component kind, creates exactly
one collection at the mapped path (typed for the first payload's kind,
VEVENT), and pushes two distinct resources into it, answering 200. -/
theorem claim_C1_mixed_email (cfg : IngestConfig) (req : IngestRequest)
    (now : String) (a1 a2 : List Nat) (cpath : String)
    (hpath : req.reqPath = "/ingest") (htok : req.token = cfg.ingestToken)
    (hne : pyLower (pyStrip req.destination) ≠ "")
    (hmap : dictGet cfg.calendarMap (pyLower (pyStrip req.destination)) =
      some cpath)
    (hcp : cpath ≠ "") (hcl : req.contentLength ≠ 0)
    (hatts : extract_ics_attachments req.parts = [a1, a2])
    (hv1 : detect_component a1 = "VEVENT")
    (hv2 : detect_component a2 = "VTODO")
    (huid : extract_uid a1 ("ingest-" ++ now) ≠
      extract_uid a2 ("ingest-" ++ now)) :
    do_POST idealRemote cfg req now ⟨[], []⟩ =
      .ok ⟨200, "OK - pushed " ++ toString (2 : Nat) ++ " event(s)",
           ⟨[(cpath, "VEVENT")],
            [(put_url cfg.baseUrl cpath (extract_uid a1 ("ingest-" ++ now)), a1),
             (put_url cfg.baseUrl cpath (extract_uid a2 ("ingest-" ++ now)), a2)]⟩,
           [Op.ensureCall cpath "VEVENT",
            Op.putCall (put_url cfg.baseUrl cpath
              (extract_uid a1 ("ingest-" ++ now))),
            Op.ensureCall cpath "VTODO",
            Op.putCall (put_url cfg.baseUrl cpath
              (extract_uid a2 ("ingest-" ++ now)))]⟩ ∧
    put_url cfg.baseUrl cpath (extract_uid a1 ("ingest-" ++ now)) ≠
      put_url cfg.baseUrl cpath (extract_uid a2 ("ingest-" ++ now)) := by
  have hurl : put_url cfg.baseUrl cpath (extract_uid a1 ("ingest-" ++ now)) ≠
      put_url cfg.baseUrl cpath (extract_uid a2 ("ingest-" ++ now)) :=
    fun h => huid (put_url_inj _ _ _ _ h)
  refine ⟨?_, hurl⟩
  have hloop := ingestLoop_two cfg.baseUrl cpath now a1 a2 hurl
  rw [hv1, hv2] at hloop
  simp [do_POST, hpath, htok, hne, hmap, hcp, hcl, hatts, hloop]

/-- C1 witness: the concrete mixed email, with UIDs `ev1` and `td1`. -/
theorem claim_C1_witness :
    do_POST idealRemote cfgC1 reqC1 "20250101T000000Z" ⟨[], []⟩ =
      .ok ⟨200, "OK - pushed " ++ toString (2 : Nat) ++ " event(s)",
           ⟨[("/nate/cal/", "VEVENT")],
            [(put_url cfgC1.baseUrl "/nate/cal/"
                (extract_uid icsC1e ("ingest-" ++ "20250101T000000Z")), icsC1e),
             (put_url cfgC1.baseUrl "/nate/cal/"
                (extract_uid icsC1t ("ingest-" ++ "20250101T000000Z")), icsC1t)]⟩,
           [Op.ensureCall "/nate/cal/" "VEVENT",
            Op.putCall (put_url cfgC1.baseUrl "/nate/cal/"
              (extract_uid icsC1e ("ingest-" ++ "20250101T000000Z"))),
            Op.ensureCall "/nate/cal/" "VTODO",
            Op.putCall (put_url cfgC1.baseUrl "/nate/cal/"
              (extract_uid icsC1t ("ingest-" ++ "20250101T000000Z")))]⟩ ∧
    put_url cfgC1.baseUrl "/nate/cal/"
        (extract_uid icsC1e ("ingest-" ++ "20250101T000000Z")) ≠
      put_url cfgC1.baseUrl "/nate/cal/"
        (extract_uid icsC1t ("ingest-" ++ "20250101T000000Z")) :=
  claim_C1_mixed_email cfgC1 reqC1 "20250101T000000Z" icsC1e icsC1t
    "/nate/cal/" rfl rfl (by decide) rfl (by decide) (by decide) rfl rfl rfl
    (by decide)

/-! ### C10 -/

theorem pushAtts_fst (po : String → List Nat → Bool) (fb msgId : String)
    (atts : List (Option (List Nat))) (acc : Bool) :
    ∀ p ∈ (pushAtts po fb msgId atts acc).1, p.1 = msgId := by
  induction atts generalizing acc with
  | nil => simp [pushAtts]
  | cons o rest ih =>
    cases o with
    | none => simp [pushAtts]
    | some d =>
      intro p hp
      rw [pushAtts] at hp
      rcases List.mem_cons.mp hp with h | h
      · rw [h]
      · exact ih _ p h

theorem pushAtts_isSome (po : String → List Nat → Bool) (fb msgId : String)
    (atts : List (Option (List Nat))) (acc : Bool)
    (hdec : ∀ o ∈ atts, o ≠ none) :
    ∃ b, (pushAtts po fb msgId atts acc).2 = some b := by
  induction atts generalizing acc with
  | nil => exact ⟨acc, rfl⟩
  | cons o rest ih =>
    cases o with
    | none => exact absurd rfl (hdec none (by simp))
    | some d =>
      rw [pushAtts]
      exact ih _ (fun o ho => hdec o (by simp [ho]))

theorem pushAtts_all_true (po : String → List Nat → Bool) (fb msgId : String)
    (atts : List (Option (List Nat))) (acc : Bool)
    (hpo : ∀ u d, po u d = true) (hdec : ∀ o ∈ atts, o ≠ none) :
    (pushAtts po fb msgId atts acc).2 = some acc := by
  induction atts generalizing acc with
  | nil => rfl
  | cons o rest ih =>
    cases o with
    | none => exact absurd rfl (hdec none (by simp))
    | some d =>
      rw [pushAtts]
      rw [hpo (extract_uid d fb) d, Bool.and_true]
      exact ih _ (fun o ho => hdec o (by simp [ho]))

theorem log_line_inj (ts a b : String)
    (h : log_processed_line ts a = log_processed_line ts b) : a = b := by
  rw [log_processed_line, log_processed_line] at h
  have hd := congrArg String.data h
  simp only [String.data_append, List.append_assoc] at hd
  have h1 := List.append_cancel_left hd
  have h2 : a.data = b.data := List.append_cancel_left h1
  exact congrArg String.mk h2

theorem runPoll_notAdded (po : String → List Nat → Bool) (fb ts : String)
    (i : String) :
    ∀ (mbox : List SourceMessage) (pids : List String), i ∉ pids →
      (∀ m2 ∈ mbox, m2.msgId = i → sync_attachments m2.parts = []) →
      i ∉ (runPoll po fb ts mbox pids).processedIds ∧
      ∀ l ∈ (runPoll po fb ts mbox pids).logAppends,
        l ≠ log_processed_line ts i := by
  intro mbox
  induction mbox with
  | nil =>
    intro pids hi _
    exact ⟨hi, by simp [runPoll]⟩
  | cons m2 rest ih =>
    intro pids hi hno
    have hrest : ∀ m ∈ rest, m.msgId = i → sync_attachments m.parts = [] :=
      fun m hmem => hno m (by simp [hmem])
    rw [runPoll]
    by_cases hsk : m2.msgId ∈ pids
    · simpa [if_pos hsk] using ih pids hi hrest
    · simp only [if_neg hsk]
      by_cases hemp : (sync_attachments m2.parts).isEmpty
      · simpa [hemp] using ih pids hi hrest
      · simp only [hemp, Bool.false_eq_true, if_false]
        rcases hpr : (pushAtts po fb m2.msgId (sync_attachments m2.parts) true).2
          with _ | allOk
        · simp [hi]
        · have hne : m2.msgId ≠ i := by
            intro he
            have := hno m2 (by simp) he
            rw [this] at hemp
            exact hemp rfl
          by_cases hok : allOk = true
          · have hi2 : i ∉ pids ++ [m2.msgId] := by
              simp only [List.mem_append, List.mem_singleton]
              rintro (h | h)
              · exact hi h
              · exact hne h.symm
            have hrec := ih (pids ++ [m2.msgId]) hi2 hrest
            simp only [hok, if_true]
            refine ⟨hrec.1, ?_⟩
            intro l hl
            rcases List.mem_cons.mp hl with h | h
            · rw [h]
              intro hcontra
              exact hne (log_line_inj ts m2.msgId i hcontra)
            · exact hrec.2 l h
          · have hrec := ih pids hi hrest
            simp only [hok, if_false]
            simpa using hrec

theorem runPoll_mailbox_subset (po : String → List Nat → Bool) (fb ts : String)
    (mbox : List SourceMessage) (pids : List String) :
    ∀ m ∈ (runPoll po fb ts mbox pids).mailbox, m ∈ mbox := by
  induction mbox generalizing pids with
  | nil => simp [runPoll]
  | cons m2 rest ih =>
    rw [runPoll]
    by_cases hsk : m2.msgId ∈ pids
    · simp only [if_pos hsk]
      intro m hm
      rcases List.mem_cons.mp hm with h | h
      · simp [h]
      · exact List.mem_cons_of_mem _ (ih pids m h)
    · simp only [if_neg hsk]
      by_cases hemp : (sync_attachments m2.parts).isEmpty
      · simp only [hemp, if_true]
        intro m hm
        rcases List.mem_cons.mp hm with h | h
        · simp [h]
        · exact List.mem_cons_of_mem _ (ih pids m h)
      · simp only [hemp, Bool.false_eq_true, if_false]
        rcases hpr : (pushAtts po fb m2.msgId (sync_attachments m2.parts) true).2
          with _ | allOk
        · simp
        · by_cases hok : allOk = true
          · simp only [hok, if_true]
            intro m hm
            exact List.mem_cons_of_mem _ (ih (pids ++ [m2.msgId]) m hm)
          · simp only [hok, if_false]
            intro m hm
            rcases List.mem_cons.mp hm with h | h
            · simp [h]
            · exact List.mem_cons_of_mem _ (ih pids m h)

theorem runPoll_keeps_noatt (po : String → List Nat → Bool) (fb ts : String)
    (m : SourceMessage) (hna : sync_attachments m.parts = []) :
    ∀ (mbox : List SourceMessage) (pids : List String), m ∈ mbox →
      m.msgId ∉ pids →
      (∀ m2 ∈ mbox, m2.msgId = m.msgId → m2 = m) →
      (∀ m2 ∈ mbox, ∀ o ∈ sync_attachments m2.parts, o ≠ none) →
      m ∈ (runPoll po fb ts mbox pids).mailbox ∧
      m.msgId ∈ (runPoll po fb ts mbox pids).parsedIds := by
  intro mbox
  induction mbox with
  | nil =>
    intro pids hm _ _ _
    simp at hm
  | cons m2 rest ih =>
    intro pids hm hid huniq hdec
    rw [runPoll]
    rcases List.mem_cons.mp hm with hm2 | hmrest
    · subst hm2
      simp only [if_neg hid]
      have hemp : (sync_attachments m.parts).isEmpty = true := by
        rw [hna]; rfl
      simp [hemp]
    · have hres : ∀ m2 ∈ rest, m2.msgId = m.msgId → m2 = m :=
        fun q hq => huniq q (by simp [hq])
      have hdes : ∀ m2 ∈ rest, ∀ o ∈ sync_attachments m2.parts, o ≠ none :=
        fun q hq => hdec q (by simp [hq])
      by_cases hsk : m2.msgId ∈ pids
      · simp only [if_pos hsk]
        have hrec := ih pids hmrest hid hres hdes
        exact ⟨List.mem_cons_of_mem _ hrec.1, hrec.2⟩
      · simp only [if_neg hsk]
        by_cases hemp : (sync_attachments m2.parts).isEmpty
        · simp only [hemp, if_true]
          have hrec := ih pids hmrest hid hres hdes
          exact ⟨List.mem_cons_of_mem _ hrec.1, List.mem_cons_of_mem _ hrec.2⟩
        · simp only [hemp, Bool.false_eq_true, if_false]
          obtain ⟨b, hb⟩ := pushAtts_isSome po fb m2.msgId
            (sync_attachments m2.parts) true (hdec m2 (by simp))
          rw [hb]
          have hne : m2.msgId ≠ m.msgId := by
            intro he
            have := huniq m2 (by simp) he
            rw [this, hna] at hemp
            exact hemp rfl
          by_cases hok : b = true
          · have hid2 : m.msgId ∉ pids ++ [m2.msgId] := by
              simp only [List.mem_append, List.mem_singleton]
              rintro (h | h)
              · exact hid h
              · exact hne h.symm
            have hrec := ih (pids ++ [m2.msgId]) hmrest hid2 hres hdes
            simp only [hok, if_true]
            exact ⟨hrec.1, List.mem_cons_of_mem _ hrec.2⟩
          · have hrec := ih pids hmrest hid hres hdes
            simp only [hok, if_false]
            exact ⟨List.mem_cons_of_mem _ hrec.1, List.mem_cons_of_mem _ hrec.2⟩

/-- C10: a source message with zero calendar attachments is never
deleted, never logged, and never added to the processed set, so after
any number `n` of poll invocations it is still in the mailbox and not
in the set — and the next invocation re-parses it (its id appears in
that run's parsed list) while appending no log line for it.
(Hypotheses: its id is fresh, no other mailbox message reuses the id,
and every qualifying payload in the mailbox decodes, so no run aborts
before reaching it.) -/
theorem claim_C10_no_attachment_message (po : String → List Nat → Bool)
    (fb ts : String) (mbox : List SourceMessage) (pids : List String)
    (m : SourceMessage)
    (hm : m ∈ mbox) (hid : m.msgId ∉ pids)
    (hna : sync_attachments m.parts = [])
    (huniq : ∀ m2 ∈ mbox, m2.msgId = m.msgId → m2 = m)
    (hdec : ∀ m2 ∈ mbox, ∀ o ∈ sync_attachments m2.parts, o ≠ none) :
    ∀ n : Nat,
      m ∈ (pollIterate po fb ts n mbox pids).1 ∧
      m.msgId ∉ (pollIterate po fb ts n mbox pids).2 ∧
      m.msgId ∈ (runPoll po fb ts (pollIterate po fb ts n mbox pids).1
        (pollIterate po fb ts n mbox pids).2).parsedIds ∧
      ∀ l ∈ (runPoll po fb ts (pollIterate po fb ts n mbox pids).1
          (pollIterate po fb ts n mbox pids).2).logAppends,
        l ≠ log_processed_line ts m.msgId := by
  have key : ∀ n mbox2 pids2, m ∈ mbox2 → m.msgId ∉ pids2 →
      (∀ m2 ∈ mbox2, m2.msgId = m.msgId → m2 = m) →
      (∀ m2 ∈ mbox2, ∀ o ∈ sync_attachments m2.parts, o ≠ none) →
      m ∈ (pollIterate po fb ts n mbox2 pids2).1 ∧
      m.msgId ∉ (pollIterate po fb ts n mbox2 pids2).2 ∧
      m.msgId ∈ (runPoll po fb ts (pollIterate po fb ts n mbox2 pids2).1
        (pollIterate po fb ts n mbox2 pids2).2).parsedIds ∧
      ∀ l ∈ (runPoll po fb ts (pollIterate po fb ts n mbox2 pids2).1
          (pollIterate po fb ts n mbox2 pids2).2).logAppends,
        l ≠ log_processed_line ts m.msgId := by
    intro n
    induction n with
    | zero =>
      intro mbox2 pids2 h1 h2 h3 h4
      have hkeep := runPoll_keeps_noatt po fb ts m hna mbox2 pids2 h1 h2 h3 h4
      have hnadd := runPoll_notAdded po fb ts m.msgId mbox2 pids2 h2
        (fun q hq he => by rw [h3 q hq he, hna])
      exact ⟨h1, h2, hkeep.2, hnadd.2⟩
    | succ n ihn =>
      intro mbox2 pids2 h1 h2 h3 h4
      have hkeep := runPoll_keeps_noatt po fb ts m hna mbox2 pids2 h1 h2 h3 h4
      have hnadd := runPoll_notAdded po fb ts m.msgId mbox2 pids2 h2
        (fun q hq he => by rw [h3 q hq he, hna])
      have hsub := runPoll_mailbox_subset po fb ts mbox2 pids2
      exact ihn (runPoll po fb ts mbox2 pids2).mailbox
        (runPoll po fb ts mbox2 pids2).processedIds hkeep.1 hnadd.1
        (fun q hq => h3 q (hsub q hq))
        (fun q hq => h4 q (hsub q hq))
  intro n
  exact key n mbox pids hm hid huniq hdec

/-- C10 witness: one calendar-free message next to a normal one, after
one completed run. -/
theorem claim_C10_witness :
    (⟨"<none@x>", [⟨"text/plain", none, some (strBytes "hi")⟩]⟩ :
        SourceMessage) ∈
      (pollIterate (fun _ _ => true) "fb" "ts" 1
        [⟨"<none@x>", [⟨"text/plain", none, some (strBytes "hi")⟩]⟩,
         ⟨"<ev@x>", [⟨"text/calendar", none,
            some (strBytes "BEGIN:VEVENT\nUID:u1\nEND:VEVENT")⟩]⟩] []).1 ∧
    "<none@x>" ∉
      (pollIterate (fun _ _ => true) "fb" "ts" 1
        [⟨"<none@x>", [⟨"text/plain", none, some (strBytes "hi")⟩]⟩,
         ⟨"<ev@x>", [⟨"text/calendar", none,
            some (strBytes "BEGIN:VEVENT\nUID:u1\nEND:VEVENT")⟩]⟩] []).2 := by
  have h := claim_C10_no_attachment_message (fun _ _ => true) "fb" "ts"
    [⟨"<none@x>", [⟨"text/plain", none, some (strBytes "hi")⟩]⟩,
     ⟨"<ev@x>", [⟨"text/calendar", none,
        some (strBytes "BEGIN:VEVENT\nUID:u1\nEND:VEVENT")⟩]⟩] []
    ⟨"<none@x>", [⟨"text/plain", none, some (strBytes "hi")⟩]⟩
    (by simp) (by simp) rfl (by decide) (by decide) 1
  exact ⟨h.1, h.2.1⟩

/-! ### C7 -/

theorem runPoll_pids_mono (po : String → List Nat → Bool) (fb ts : String) :
    ∀ (mbox : List SourceMessage) (pids : List String) (i : String),
      i ∈ pids → i ∈ (runPoll po fb ts mbox pids).processedIds := by
  intro mbox
  induction mbox with
  | nil => intro pids i hi; exact hi
  | cons m2 rest ih =>
    intro pids i hi
    rw [runPoll]
    by_cases hsk : m2.msgId ∈ pids
    · simpa [hsk] using ih pids i hi
    · simp only [if_neg hsk]
      by_cases hemp : (sync_attachments m2.parts).isEmpty
      · simpa [hemp] using ih pids i hi
      · simp only [hemp, Bool.false_eq_true, if_false]
        rcases hpr : (pushAtts po fb m2.msgId (sync_attachments m2.parts) true).2
          with _ | allOk
        · simpa using hi
        · by_cases hok : allOk = true
          · simpa [hok] using ih (pids ++ [m2.msgId]) i (by simp [hi])
          · simpa [hok] using ih pids i hi

theorem runPoll_skip (po : String → List Nat → Bool) (fb ts : String) :
    ∀ (mbox : List SourceMessage) (pids : List String) (i : String),
      i ∈ pids →
      (∀ m ∈ mbox, m.msgId = i → m ∈ (runPoll po fb ts mbox pids).mailbox) ∧
      i ∉ (runPoll po fb ts mbox pids).parsedIds ∧
      (∀ p ∈ (runPoll po fb ts mbox pids).pushes, p.1 ≠ i) ∧
      (∀ l ∈ (runPoll po fb ts mbox pids).logAppends,
        l ≠ log_processed_line ts i) := by
  intro mbox
  induction mbox with
  | nil =>
    intro pids i hi
    refine ⟨by simp, by simp [runPoll], by simp [runPoll], by simp [runPoll]⟩
  | cons m2 rest ih =>
    intro pids i hi
    rw [runPoll]
    by_cases hsk : m2.msgId ∈ pids
    · have hrec := ih pids i hi
      simp only [if_pos hsk]
      refine ⟨?_, hrec.2.1, hrec.2.2.1, hrec.2.2.2⟩
      intro m hm hmi
      rcases List.mem_cons.mp hm with h | h
      · simp [h]
      · exact List.mem_cons_of_mem _ (hrec.1 m h hmi)
    · have hne : m2.msgId ≠ i := fun he => hsk (he ▸ hi)
      simp only [if_neg hsk]
      by_cases hemp : (sync_attachments m2.parts).isEmpty
      · have hrec := ih pids i hi
        simp only [hemp, if_true]
        refine ⟨?_, ?_, hrec.2.2.1, hrec.2.2.2⟩
        · intro m hm hmi
          rcases List.mem_cons.mp hm with h | h
          · simp [h]
          · exact List.mem_cons_of_mem _ (hrec.1 m h hmi)
        · intro hcontra
          rcases List.mem_cons.mp hcontra with h | h
          · exact hne h.symm
          · exact hrec.2.1 h
      · simp only [hemp, Bool.false_eq_true, if_false]
        rcases hpr : (pushAtts po fb m2.msgId (sync_attachments m2.parts) true).2
          with _ | allOk
        · refine ⟨fun m hm _ => hm, by simpa using hne.symm, ?_, by simp⟩
          intro p hp
          rw [pushAtts_fst po fb m2.msgId (sync_attachments m2.parts) true p
            (by simpa using hp)]
          exact hne
        · by_cases hok : allOk = true
          · have hrec := ih (pids ++ [m2.msgId]) i (by simp [hi])
            simp only [hok, if_true]
            refine ⟨?_, ?_, ?_, ?_⟩
            · intro m hm hmi
              rcases List.mem_cons.mp hm with h | h
              · exact absurd (h ▸ hmi) hne
              · exact hrec.1 m h hmi
            · intro hcontra
              rcases List.mem_cons.mp hcontra with h | h
              · exact hne h.symm
              · exact hrec.2.1 h
            · intro p hp
              rcases List.mem_append.mp (by simpa using hp) with h | h
              · rw [pushAtts_fst po fb m2.msgId (sync_attachments m2.parts)
                  true p h]
                exact hne
              · exact hrec.2.2.1 p h
            · intro l hl
              rcases List.mem_cons.mp hl with h | h
              · rw [h]
                intro hcontra
                exact hne (log_line_inj ts m2.msgId i hcontra)
              · exact hrec.2.2.2 l h
          · have hrec := ih pids i hi
            simp only [hok, if_false]
            refine ⟨?_, ?_, ?_, hrec.2.2.2⟩
            · intro m hm hmi
              rcases List.mem_cons.mp hm with h | h
              · simp [h]
              · exact List.mem_cons_of_mem _ (hrec.1 m h hmi)
            · intro hcontra
              rcases List.mem_cons.mp hcontra with h | h
              · exact hne h.symm
              · exact hrec.2.1 h
            · intro p hp
              rcases List.mem_append.mp (by simpa using hp) with h | h
              · rw [pushAtts_fst po fb m2.msgId (sync_attachments m2.parts)
                  true p h]
                exact hne
              · exact hrec.2.2.1 p h

theorem runPoll_nopush (po : String → List Nat → Bool) (fb ts : String) :
    ∀ (mbox : List SourceMessage) (pids : List String),
      (∀ m ∈ mbox, m.msgId ∈ pids ∨ sync_attachments m.parts = []) →
      (runPoll po fb ts mbox pids).pushes = [] ∧
      (runPoll po fb ts mbox pids).logAppends = [] ∧
      (runPoll po fb ts mbox pids).mailbox = mbox ∧
      (runPoll po fb ts mbox pids).processedIds = pids := by
  intro mbox
  induction mbox with
  | nil => intro pids _; exact ⟨rfl, rfl, rfl, rfl⟩
  | cons m2 rest ih =>
    intro pids hyp
    have hrec := ih pids (fun m hm => hyp m (by simp [hm]))
    rw [runPoll]
    by_cases hsk : m2.msgId ∈ pids
    · simp only [if_pos hsk]
      exact ⟨hrec.1, hrec.2.1, by simp [hrec.2.2.1], hrec.2.2.2⟩
    · have hempty : sync_attachments m2.parts = [] := by
        rcases hyp m2 (by simp) with h | h
        · exact absurd h hsk
        · exact h
      have hemp : (sync_attachments m2.parts).isEmpty = true := by
        rw [hempty]; rfl
      simp only [if_neg hsk, hemp, if_true]
      exact ⟨hrec.1, hrec.2.1, by simp [hrec.2.2.1], hrec.2.2.2⟩

theorem runPoll_success_inv (po : String → List Nat → Bool) (fb ts : String)
    (hpo : ∀ u d, po u d = true) :
    ∀ (mbox : List SourceMessage) (pids : List String),
      (∀ m ∈ mbox, ∀ o ∈ sync_attachments m.parts, o ≠ none) →
      ∀ m ∈ (runPoll po fb ts mbox pids).mailbox,
        m.msgId ∈ (runPoll po fb ts mbox pids).processedIds ∨
        sync_attachments m.parts = [] := by
  intro mbox
  induction mbox with
  | nil => intro pids _ m hm; simp [runPoll] at hm
  | cons m2 rest ih =>
    intro pids hdec m hm
    have hdes : ∀ q ∈ rest, ∀ o ∈ sync_attachments q.parts, o ≠ none :=
      fun q hq => hdec q (by simp [hq])
    rw [runPoll] at hm ⊢
    by_cases hsk : m2.msgId ∈ pids
    · simp only [if_pos hsk] at hm ⊢
      rcases List.mem_cons.mp (by simpa using hm) with h | h
      · left
        subst h
        exact runPoll_pids_mono po fb ts rest pids m.msgId hsk
      · exact ih pids hdes m h
    · simp only [if_neg hsk] at hm ⊢
      by_cases hemp : (sync_attachments m2.parts).isEmpty
      · simp only [hemp, if_true] at hm ⊢
        rcases List.mem_cons.mp (by simpa using hm) with h | h
        · right
          subst h
          exact List.isEmpty_iff.mp hemp
        · exact ih pids hdes m h
      · have hb := pushAtts_all_true po fb m2.msgId (sync_attachments m2.parts)
          true hpo (hdec m2 (by simp))
        simp only [hemp, Bool.false_eq_true, if_false, hb, if_true] at hm ⊢
        exact ih (pids ++ [m2.msgId]) hdes m (by simpa using hm)

/-- C7 counterexample: with an unchanged delivery log and an unchanged
mailbox, re-running the poll logic does **not** always produce zero new
pushes.  A message whose single push failed leaves both the log and the
mailbox exactly as they were, yet the next run attempts its push again
(the deliberate retry behaviour).  Here the first run appends nothing
to the log, deletes nothing, and marks nothing processed, and the
second run — on that unchanged state — performs a push. -/
theorem claim_C7_counterexample :
    (runPoll (fun _ _ => false) "fb" "ts"
        [⟨"<f@x>", [⟨"text/calendar", none,
            some (strBytes "BEGIN:VEVENT\nUID:u\nEND:VEVENT")⟩]⟩]
        []).logAppends = [] ∧
    (runPoll (fun _ _ => false) "fb" "ts"
        [⟨"<f@x>", [⟨"text/calendar", none,
            some (strBytes "BEGIN:VEVENT\nUID:u\nEND:VEVENT")⟩]⟩]
        []).mailbox =
      [⟨"<f@x>", [⟨"text/calendar", none,
          some (strBytes "BEGIN:VEVENT\nUID:u\nEND:VEVENT")⟩]⟩] ∧
    (runPoll (fun _ _ => false) "fb" "ts"
        [⟨"<f@x>", [⟨"text/calendar", none,
            some (strBytes "BEGIN:VEVENT\nUID:u\nEND:VEVENT")⟩]⟩]
        []).processedIds = [] ∧
    (runPoll (fun _ _ => false) "fb" "ts"
        (runPoll (fun _ _ => false) "fb" "ts"
          [⟨"<f@x>", [⟨"text/calendar", none,
              some (strBytes "BEGIN:VEVENT\nUID:u\nEND:VEVENT")⟩]⟩] []).mailbox
        (runPoll (fun _ _ => false) "fb" "ts"
          [⟨"<f@x>", [⟨"text/calendar", none,
              some (strBytes "BEGIN:VEVENT\nUID:u\nEND:VEVENT")⟩]⟩]
          []).processedIds).pushes ≠ [] := by
  refine ⟨rfl, rfl, rfl, ?_⟩
  decide

/-- C7 (amended): provided every push succeeds and every qualifying
payload decodes, the poll run is idempotent: a second run on the state
the first run leaves behind performs zero pushes, appends nothing to
the log, and changes neither mailbox nor processed set.  (When a push
fails, the affected message is deliberately left for retry, so a
re-run does push again — see the counterexample.)  Independently and
unconditionally, every message whose identifier is in the loaded set
is skipped entirely: it is not re-parsed, not pushed, not deleted, and
no log line is appended for it. -/
theorem claim_C7_rerun_idempotent (po : String → List Nat → Bool)
    (fb ts : String) (mbox : List SourceMessage) (pids : List String)
    (hpo : ∀ u d, po u d = true)
    (hdec : ∀ m ∈ mbox, ∀ o ∈ sync_attachments m.parts, o ≠ none) :
    ((runPoll po fb ts (runPoll po fb ts mbox pids).mailbox
        (runPoll po fb ts mbox pids).processedIds).pushes = [] ∧
     (runPoll po fb ts (runPoll po fb ts mbox pids).mailbox
        (runPoll po fb ts mbox pids).processedIds).logAppends = [] ∧
     (runPoll po fb ts (runPoll po fb ts mbox pids).mailbox
        (runPoll po fb ts mbox pids).processedIds).mailbox =
       (runPoll po fb ts mbox pids).mailbox ∧
     (runPoll po fb ts (runPoll po fb ts mbox pids).mailbox
        (runPoll po fb ts mbox pids).processedIds).processedIds =
       (runPoll po fb ts mbox pids).processedIds) ∧
    (∀ i ∈ pids,
      (∀ m ∈ mbox, m.msgId = i → m ∈ (runPoll po fb ts mbox pids).mailbox) ∧
      i ∉ (runPoll po fb ts mbox pids).parsedIds ∧
      (∀ p ∈ (runPoll po fb ts mbox pids).pushes, p.1 ≠ i) ∧
      (∀ l ∈ (runPoll po fb ts mbox pids).logAppends,
        l ≠ log_processed_line ts i)) :=
  ⟨runPoll_nopush po fb ts (runPoll po fb ts mbox pids).mailbox
      (runPoll po fb ts mbox pids).processedIds
      (runPoll_success_inv po fb ts hpo mbox pids hdec),
   fun i hi => runPoll_skip po fb ts mbox pids i hi⟩

/-- C7 witness: after a fully successful run over one message, the
second run pushes nothing and changes nothing. -/
theorem claim_C7_witness :
    (runPoll (fun _ _ => true) "fb" "ts"
        (runPoll (fun _ _ => true) "fb" "ts"
          [⟨"<e@x>", [⟨"text/calendar", none,
              some (strBytes "BEGIN:VEVENT\nUID:u9\nEND:VEVENT")⟩]⟩]
          []).mailbox
        (runPoll (fun _ _ => true) "fb" "ts"
          [⟨"<e@x>", [⟨"text/calendar", none,
              some (strBytes "BEGIN:VEVENT\nUID:u9\nEND:VEVENT")⟩]⟩]
          []).processedIds).pushes = [] ∧
    (runPoll (fun _ _ => true) "fb" "ts"
        (runPoll (fun _ _ => true) "fb" "ts"
          [⟨"<e@x>", [⟨"text/calendar", none,
              some (strBytes "BEGIN:VEVENT\nUID:u9\nEND:VEVENT")⟩]⟩]
          []).mailbox
        (runPoll (fun _ _ => true) "fb" "ts"
          [⟨"<e@x>", [⟨"text/calendar", none,
              some (strBytes "BEGIN:VEVENT\nUID:u9\nEND:VEVENT")⟩]⟩]
          []).processedIds).logAppends = [] := by
  have h := claim_C7_rerun_idempotent (fun _ _ => true) "fb" "ts"
    [⟨"<e@x>", [⟨"text/calendar", none,
        some (strBytes "BEGIN:VEVENT\nUID:u9\nEND:VEVENT")⟩]⟩] []
    (fun _ _ => rfl) (by decide)
  exact ⟨h.1.1, h.1.2.1⟩

end Radicale
